import Mathlib

/-!
Verification of the output-cleaning / label-extraction / majority-voting core
of `src/models/query_utils.py` (functions `get_query_params`, `find_majority`,
`find_majority_str`, `find_majority_dict`, `clean_llm_output`,
`clean_llm_output_summary`, `clean_llm_output_sentiment`,
`clean_llm_output_gold`), shallowly embedded in Lean.

Python strings are modelled as `List Char`; Python values parsed from JSON as
the inductive `JVal` (JSON numbers are modelled as exact integers/rationals);
Python exceptions as `Except PyErr`; `random.choice` as an oracle index
supplied by the caller.  The `re.sub`/`re.findall` calls of the source are
executed by a small backtracking matcher (`reMatch`) over a regex syntax tree
`RE` that mirrors each source pattern construct by construct; repetitions in
the source patterns only ever apply to single-character classes, which is the
one restriction the `RE` type imposes.
-/

/-- Model of Python `str.isspace` / unicode-aware `\s` on the code points the
source can meet (ASCII whitespace, the C1 controls 0x1c-0x1f, NEL, NBSP and
the usual Unicode space separators). -/
def pyIsSpace (c : Char) : Bool :=
  (c = ' ') || (c.toNat ≥ 0x09 && c.toNat ≤ 0x0d) ||
  (c.toNat ≥ 0x1c && c.toNat ≤ 0x1f) || (c.toNat = 0x85) || (c.toNat = 0xa0) ||
  (c.toNat = 0x1680) || (c.toNat ≥ 0x2000 && c.toNat ≤ 0x200a) ||
  (c.toNat = 0x2028) || (c.toNat = 0x2029) || (c.toNat = 0x202f) ||
  (c.toNat = 0x205f) || (c.toNat = 0x3000)

/-- Model of Python `str.strip()`: drop leading and trailing whitespace. -/
def pyStrip (l : List Char) : List Char :=
  ((l.dropWhile pyIsSpace).reverse.dropWhile pyIsSpace).reverse

/-- Model of Python `str.lower()` (ASCII case folding suffices for the
keywords the source compares against). -/
def pyLower (l : List Char) : List Char :=
  l.map Char.toLower

/-- Python `needle in haystack` on strings: substring containment. -/
def containsSub (needle hay : List Char) : Bool :=
  match hay with
  | [] => needle.isEmpty
  | _ :: t => needle.isPrefixOf hay || containsSub needle t

/-- Number of matches `re.findall(needle, hay)` returns for a literal,
regex-metacharacter-free `needle`: leftmost non-overlapping occurrences.
(`fuel` only drives termination; it is instantiated with `hay.length + 1`.) -/
def countOccursAux (needle : List Char) : Nat → List Char → Nat
  | 0, _ => 0
  | _ + 1, [] => if needle.isEmpty then 1 else 0
  | fuel + 1, c :: t =>
    if needle.isPrefixOf (c :: t) && !needle.isEmpty then
      1 + countOccursAux needle fuel ((c :: t).drop needle.length)
    else
      countOccursAux needle fuel t

/-- Leftmost non-overlapping occurrence count of a literal pattern. -/
def countOccurs (needle hay : List Char) : Nat :=
  countOccursAux needle (hay.length + 1) hay

/-- `l[a:b]` slice of a character list. -/
def sliceChars (l : List Char) (a b : Nat) : List Char :=
  (l.drop a).take (b - a)

/-- First binding of a key in an association list (Python `d[k]` once the
list is duplicate-free, as all dictionaries built below are). -/
def lookupFirst {V : Type} (l : List (List Char × V)) (k : List Char) : Option V :=
  match l with
  | [] => none
  | p :: t => if p.1 = k then some p.2 else lookupFirst t k

/-- Python `dict(pairs)` / a dict comprehension over `pairs`: first occurrence
of a key keeps its position, a later duplicate overwrites the value. -/
def dictInsert {V : Type} (l : List (List Char × V)) (kv : List Char × V) :
    List (List Char × V) :=
  if l.any (fun p => p.1 = kv.1) then
    l.map (fun p => if p.1 = kv.1 then kv else p)
  else l ++ [kv]

/-- Build a Python dict (duplicate keys collapsed, last value wins) from a
pair list. -/
def dictOfPairs {V : Type} (pairs : List (List Char × V)) :
    List (List Char × V) :=
  pairs.foldl dictInsert []

/-- Order-preserving first-occurrence dedup, fuel-driven (`fuel` is
instantiated with `length + 1`, always enough since every step strictly
shrinks the list). -/
def firstOccsAux {α : Type} [DecidableEq α] : Nat → List α → List α
  | 0, _ => []
  | _ + 1, [] => []
  | fuel + 1, a :: t => a :: firstOccsAux fuel (t.filter (fun b => b ≠ a))

/-- Order-preserving list of first occurrences of the elements of `l`
(the key order of a `collections.Counter` built from `l`). -/
def firstOccs {α : Type} [DecidableEq α] (l : List α) : List α :=
  firstOccsAux (l.length + 1) l

/-- `Counter(l).most_common(1)[0]`: the pair (element, count) with the highest
count; ties resolve to the earliest first occurrence because CPython's
`most_common` sorts stably over insertion order.  `none` models the
`IndexError` that `[0]` raises on an empty input. -/
def mostCommon1 {α : Type} [DecidableEq α] (l : List α) : Option (α × Nat) :=
  match firstOccs l with
  | [] => none
  | k :: ks =>
    some (ks.foldl
      (fun b a => if l.count a > b.2 then (a, l.count a) else b)
      (k, l.count k))

/-- The shared voting rule of `find_majority_str` and of each key of
`find_majority_dict`: the most common element if it is a strict majority,
otherwise `random.choice` over the whole input, modelled by the oracle
index `pick` taken modulo the length. -/
def majorityRule {α : Type} [DecidableEq α] (l : List α) (pick : Nat) :
    Option α :=
  match mostCommon1 l with
  | none => none
  | some mc => if l.length < 2 * mc.2 then some mc.1 else l.get? (pick % l.length)

/-- `find_majority_str` (query_utils.py lines 26-41).  `majority[1] > len(responses)/2`
on integers is `2 * count > length`. -/
def find_majority_str {α : Type} [DecidableEq α] (responses : List α)
    (pick : Nat) : Option α :=
  majorityRule responses pick

/-- Value list collected for one key by `find_majority_dict`: the values of
the responses that contain the key, in response order. -/
def dictKeyValues {V : Type} (responses : List (List (List Char × V)))
    (k : List Char) : List V :=
  responses.filterMap (fun r => lookupFirst r k)

/-- `find_majority_dict` (query_utils.py lines 43-72): collect the values per
key across all response dicts (keys in first-appearance order), then apply
the majority-or-random rule to each key independently.  The per-key oracle
`pick` models the independent `random.choice` calls; the `Option` in an entry
is `none` only in the unreachable empty-value-list case. -/
def find_majority_dict {V : Type} [DecidableEq V]
    (responses : List (List (List Char × V)))
    (pick : List Char → Nat) : List (List Char × Option V) :=
  (firstOccs (responses.flatMap (fun r => r.map (fun p => p.1)))).map
    (fun k => (k, majorityRule (dictKeyValues responses k) (pick k)))

/-! ## A small backtracking regex matcher

Mirrors the Python `re` behaviour needed by the source patterns: sequencing,
ordered alternation, greedy/lazy repetition of single-character classes,
multiline `^`/`$`, leftmost-match search and global substitution. -/

/-- Regex syntax tree.  Repetition (`star`) is restricted to one-character
classes, which covers every `*`/`+` in the source patterns. -/
inductive RE : Type
  | eps : RE
  | ch (p : Char → Bool) : RE
  | seq (a b : RE) : RE
  | alt (a b : RE) : RE
  | star (greedy : Bool) (p : Char → Bool) : RE
  | bol : RE
  | eol : RE

/-- Length of the maximal prefix of `l` of characters satisfying `p`. -/
def prefixRun (p : Char → Bool) : List Char → Nat
  | [] => 0
  | c :: t => if p c then prefixRun p t + 1 else 0

/-- Length of the run of characters satisfying `p` starting at `i`. -/
def runLen (p : Char → Bool) (s : List Char) (i : Nat) : Nat :=
  prefixRun p (s.drop i)

/-- First position in `js` accepted by the continuation `k`. -/
def firstSome (js : List Nat) (k : Nat → Option Nat) : Option Nat :=
  match js with
  | [] => none
  | j :: t => (k j).orElse (fun _ => firstSome t k)

/-- Backtracking matcher: try to match `r` in `s` starting at offset `i`,
passing each candidate end offset to the continuation `k` in the preference
order of Python's engine (leftmost, alternation left first, greedy longest
first / lazy shortest first).  Returns the first end offset `k` accepts. -/
def reMatch : RE → List Char → Nat → (Nat → Option Nat) → Option Nat
  | .eps, _, i, k => k i
  | .ch p, s, i, k =>
    match s.get? i with
    | some c => if p c then k (i + 1) else none
    | none => none
  | .seq a b, s, i, k => reMatch a s i (fun j => reMatch b s j k)
  | .alt a b, s, i, k => (reMatch a s i k).orElse (fun _ => reMatch b s i k)
  | .bol, s, i, k =>
    if i = 0 || s.get? (i - 1) = some '\n' then k i else none
  | .eol, s, i, k =>
    if i = s.length || s.get? i = some '\n' then k i else none
  | .star greedy p, s, i, k =>
    let m := runLen p s i
    let cs := if greedy then (List.range (m + 1)).reverse else List.range (m + 1)
    firstSome (cs.map (fun c => i + c)) k

/-- Earliest offset `j ≥ i` at which `r` matches, with the match end chosen
by backtracking preference; `fuel` is instantiated with enough positions to
scan the whole string. -/
def reFindAux (r : RE) (s : List Char) : Nat → Nat → Option (Nat × Nat)
  | 0, _ => none
  | fuel + 1, i =>
    match reMatch r s i (fun j => some j) with
    | some j => some (i, j)
    | none => if i < s.length then reFindAux r s fuel (i + 1) else none

/-- Leftmost match of `r` in `s` at or after offset `i`. -/
def reFindFrom (r : RE) (s : List Char) (i : Nat) : Option (Nat × Nat) :=
  reFindAux r s (s.length + 1 - i) i

/-- `re.sub(r, repl, s)` for a constant replacement: replace every
non-overlapping leftmost match.  An empty match advances one character, as in
Python. -/
def pySubAux (r : RE) (repl : List Char) (s : List Char) :
    Nat → Nat → List Char
  | 0, i => s.drop i
  | fuel + 1, i =>
    match reFindFrom r s i with
    | none => s.drop i
    | some ab =>
      sliceChars s i ab.1 ++ repl ++
        (if ab.1 < ab.2 then pySubAux r repl s fuel ab.2
         else match s.get? ab.1 with
           | some c => c :: pySubAux r repl s fuel (ab.1 + 1)
           | none => [])

/-- `re.sub` with a constant replacement string. -/
def pySub (r : RE) (repl : List Char) (s : List Char) : List Char :=
  pySubAux r repl s (s.length + 1) 0

/-- Spans (start, end) of all matches, as enumerated by `re.findall`. -/
def pyFindAllAux (r : RE) (s : List Char) : Nat → Nat → List (Nat × Nat)
  | 0, _ => []
  | fuel + 1, i =>
    match reFindFrom r s i with
    | none => []
    | some ab =>
      ab :: (if ab.1 < ab.2 then pyFindAllAux r s fuel ab.2
             else pyFindAllAux r s fuel (ab.1 + 1))

/-- All non-overlapping leftmost matches of `r` in `s`, as substrings. -/
def pyFindAll (r : RE) (s : List Char) : List (List Char) :=
  (pyFindAllAux r s (s.length + 1) 0).map (fun ab => sliceChars s ab.1 ab.2)

/-- A literal, case-sensitive. -/
def reLit (w : List Char) : RE :=
  w.foldr (fun c r => RE.seq (RE.ch (fun d => d = c)) r) RE.eps

/-- A literal under the `re.IGNORECASE` flag (ASCII folding). -/
def reLitCI (w : List Char) : RE :=
  w.foldr (fun c r => RE.seq (RE.ch (fun d => d.toLower = c.toLower)) r) RE.eps

/-- Greedy `x?` around an arbitrary subpattern. -/
def reOpt (r : RE) : RE := RE.alt r RE.eps

/-- Greedy `p+` for a character class. -/
def rePlus (p : Char → Bool) : RE := RE.seq (RE.ch p) (RE.star true p)

/-- Sequencing of a pattern list. -/
def reSeqL (l : List RE) : RE := l.foldr RE.seq RE.eps

/-- `.` without `re.DOTALL`: any character but a newline. -/
def reDot (c : Char) : Bool := c ≠ '\n'

/-- `\d` (the source strings are ASCII; Unicode digits are out of scope). -/
def reDigit (c : Char) : Bool := c.toNat ≥ 48 && c.toNat ≤ 57

/-! ## Python exceptions and shared dispatch -/

/-- The Python exceptions the embedded code can raise. -/
inductive PyErr : Type
  | typeError : PyErr
  | keyError : PyErr
  | valueError : PyErr
  | indexError : PyErr
deriving DecidableEq, Repr

/-- Shorthand: the character list of a string literal. -/
def cl (s : String) : List Char := s.data

/-! ## `clean_llm_output_summary` (query_utils.py lines 82-143)

Each `re.sub` of the source is one stage below; the pattern trees transcribe
the source patterns construct by construct. -/

/-- Pattern of line 94: `(?im)^.*?\d+\s+bullet points?.*$`. -/
def patBulletCount : RE :=
  reSeqL [RE.bol, RE.star false reDot, rePlus reDigit, rePlus pyIsSpace,
    reLitCI (cl ("bullet point")), reOpt (reLitCI (cl ("s"))),
    RE.star true reDot, RE.eol]

/-- Stage of line 94: remove numeric bullet point reference lines. -/
def stage_bulletCount (l : List Char) : List Char := pySub patBulletCount [] l

/-- Pattern of line 98:
`(?im)^.*?(bullet points?|summary|summariz|key points|important facts).*?(?:\.|\:|\n)`. -/
def patHeadline : RE :=
  reSeqL [RE.bol, RE.star false reDot,
    RE.alt (RE.seq (reLitCI (cl ("bullet point"))) (reOpt (reLitCI (cl ("s")))))
      (RE.alt (reLitCI (cl ("summary")))
        (RE.alt (reLitCI (cl ("summariz")))
          (RE.alt (reLitCI (cl ("key points"))) (reLitCI (cl ("important facts")))))),
    RE.star false reDot,
    RE.alt (RE.ch (fun c => c = '.'))
      (RE.alt (RE.ch (fun c => c = ':')) (RE.ch (fun c => c = '\n')))]

/-- Stage of line 98: remove headline patterns introducing bullet points. -/
def stage_headline (l : List Char) : List Char := pySub patHeadline [] l

/-- Pattern of line 101: `(?m)^#+\s+.*$`. -/
def patHeader : RE :=
  reSeqL [RE.bol, rePlus (fun c => c = '#'), rePlus pyIsSpace,
    RE.star true reDot, RE.eol]

/-- Stage of line 101: remove markdown header lines. -/
def stage_header (l : List Char) : List Char := pySub patHeader [] l

/-- A bullet marker character: `[\*\-•]`. -/
def isBulletChar (c : Char) : Bool := c = '*' || c = '-' || c = '•'

/-- Pattern of line 104: `(?m)^\s*[\*\-•]\s*`. -/
def patBulletMarker : RE :=
  reSeqL [RE.bol, RE.star true pyIsSpace, RE.ch isBulletChar,
    RE.star true pyIsSpace]

/-- Stage of line 104: strip leading bullet markers. -/
def stage_bulletMarker (l : List Char) : List Char := pySub patBulletMarker [] l

/-- Pattern of line 107: `(?m)^\s*\d+\.\s+`. -/
def patEnumMarker : RE :=
  reSeqL [RE.bol, RE.star true pyIsSpace, rePlus reDigit,
    RE.ch (fun c => c = '.'), rePlus pyIsSpace]

/-- Stage of line 107: strip leading enumerated-list markers. -/
def stage_enumMarker (l : List Char) : List Char := pySub patEnumMarker [] l

/-- The backtick character (code point 96). -/
def backtickChar : Char := Char.ofNat 96

/-- Stage of line 110: remove every backtick (the sub of backtick runs by the
empty string deletes exactly the backtick characters). -/
def stage_backticks (l : List Char) : List Char :=
  l.filter (fun c => c ≠ backtickChar)

/-- Case-insensitive (ASCII) literal prefix test, Python `re.IGNORECASE`. -/
def isPrefixOfCI (p l : List Char) : Bool :=
  (pyLower p).isPrefixOf (pyLower l)

/-- `re.sub(rf'(?i){re.escape(phrase)}.*\Z', '', s, flags=re.DOTALL)` (and
the line-122 variant whose un-multiline `$` likewise reaches the end of the
whole string): truncate at the first case-insensitive occurrence of the
phrase. -/
def truncFromCI (phrase : List Char) : List Char → List Char
  | [] => []
  | c :: t => if isPrefixOfCI phrase (c :: t) then [] else c :: truncFromCI phrase t

/-- Stage of lines 113-115: drop everything from the first occurrence of
"Here is the response in the correct format:" to the end of the text. -/
def stage_allAfter (l : List Char) : List Char :=
  truncFromCI (cl ("Here is the response in the correct format:")) l

/-- Stage of lines 118-122: the `(?i)\(Note:.*$` sub with `re.DOTALL` and
without `re.MULTILINE`, so it deletes from the first "(Note:" to the end of
the whole remaining text (not just the line). -/
def stage_noteLine (l : List Char) : List Char :=
  truncFromCI (cl ("(Note:")) l

/-- Leftmost non-overlapping case-insensitive removal of a literal phrase,
`re.sub(rf'(?i){re.escape(phrase)}', '', s)`.  `fuel` drives termination
and is instantiated with `length + 1`. -/
def removeAllCIAux (phrase : List Char) : Nat → List Char → List Char
  | 0, l => l
  | _ + 1, [] => []
  | fuel + 1, c :: t =>
    if !phrase.isEmpty && isPrefixOfCI phrase (c :: t) then
      removeAllCIAux phrase fuel ((c :: t).drop phrase.length)
    else
      c :: removeAllCIAux phrase fuel t

/-- Remove every case-insensitive occurrence of a literal phrase. -/
def removeAllCI (phrase s : List Char) : List Char :=
  removeAllCIAux phrase (s.length + 1) s

/-- The denylist of lines 125-135, in the source order (including the
duplicated final entry). -/
def phrases_remove : List (List Char) :=
  [cl ("i hope it is correct"),
   cl ("please let me know if"),
   cl ("(Note: I added the last point as it was not in the format you requested)"),
   cl ("Here is the corrected response:"),
   cl ("(Note: I added the last point as it was not in"),
   cl ("I hope this is what you were looking for."),
   cl ("$0.00"),
   cl ("$$"),
   cl ("Here is the corrected response:")]

/-- Stage of lines 125-137: remove each denylist phrase in order. -/
def stage_phrases (l : List Char) : List Char :=
  phrases_remove.foldl (fun acc p => removeAllCI p acc) l

/-- Fuel-driven worker for the newline-collapsing sub: each maximal newline
run of length `n ≥ 3` is replaced by two newlines, shorter runs are kept.
`fuel` is instantiated with `length + 1`; every step consumes at least one
character. -/
def collapseNLAux : Nat → List Char → List Char
  | 0, l => l
  | _ + 1, [] => []
  | fuel + 1, c :: t =>
    if c = '\n' then
      let n := prefixRun (fun d => d = '\n') (c :: t)
      (if n ≥ 3 then ['\n', '\n'] else List.replicate n '\n') ++
        collapseNLAux fuel ((c :: t).drop n)
    else
      c :: collapseNLAux fuel t

/-- Stage of line 140, `re.sub(r'\n{3,}', '\n\n', s)`: each maximal run of
three or more newlines becomes exactly two. -/
def collapseNL (l : List Char) : List Char :=
  collapseNLAux (l.length + 1) l

/-- Stage of line 140 under its source-comment name. -/
def stage_newlines (l : List Char) : List Char := collapseNL l

/-- Stage of line 141: `str.strip()`. -/
def stage_strip (l : List Char) : List Char := pyStrip l

/-- The full cleaning pipeline of `clean_llm_output_summary` on an actual
string, stages composed in source order. -/
def summaryCleanChars (l : List Char) : List Char :=
  stage_strip (stage_newlines (stage_phrases (stage_noteLine (stage_allAfter
    (stage_backticks (stage_enumMarker (stage_bulletMarker (stage_header
      (stage_headline (stage_bulletCount l))))))))))

/-- `clean_llm_output_summary` (query_utils.py lines 82-143).  The argument is
`Option String` because the pipeline's callers can hand it `None` (the
fallback return of `query_ollama_model`); `re.sub` then raises `TypeError`,
which the function does not catch. -/
def clean_llm_output_summary : Option String → Except PyErr String
  | none => Except.error PyErr.typeError
  | some t => Except.ok (String.mk (summaryCleanChars t.data))

/-! ## Python values parsed from JSON, and `json.loads`

`clean_llm_output_gold` runs candidate substrings through `json.loads`; the
parser below follows the grammar CPython's `json` module accepts (RFC JSON
plus `NaN`/`Infinity`/`-Infinity`, strict strings, no trailing data), with
numbers kept exact: integers as `Int`, decimals as `Rat` (the double-rounding
of CPython floats is out of scope of the claims). -/

/-- A Python value produced by `json.loads`. -/
inductive JVal : Type
  | jnull : JVal
  | jbool (b : Bool) : JVal
  | jint (n : Int) : JVal
  | jfloat (q : Rat) : JVal
  | jnan : JVal
  | jinf (neg : Bool) : JVal
  | jstr (s : List Char) : JVal
  | jarr (elems : List JVal) : JVal
  | jobj (entries : List (List Char × JVal)) : JVal

/-- JSON insignificant whitespace (the `json` module's `_w`: space, tab,
newline, carriage return). -/
def jsonWsChar (c : Char) : Bool :=
  c = ' ' || c = '\t' || c = '\n' || c = '\r'

/-- Skip insignificant JSON whitespace. -/
def skipWs (l : List Char) : List Char := l.dropWhile jsonWsChar

/-- Value of a digit string. -/
def digitsVal (ds : List Char) : Nat :=
  ds.foldl (fun a c => a * 10 + (c.toNat - 48)) 0

/-- Value of a hexadecimal digit. -/
def hexVal (c : Char) : Option Nat :=
  if reDigit c then some (c.toNat - 48)
  else if c.toNat ≥ 97 && c.toNat ≤ 102 then some (c.toNat - 87)
  else if c.toNat ≥ 65 && c.toNat ≤ 70 then some (c.toNat - 55)
  else none

/-- Parse a `\uXXXX` code unit (after the `\u`). -/
def parseHex4 (l : List Char) : Option (Nat × List Char) :=
  match l with
  | a :: b :: c :: d :: rest =>
    match hexVal a, hexVal b, hexVal c, hexVal d with
    | some x, some y, some z, some w => some (((x * 16 + y) * 16 + z) * 16 + w, rest)
    | _, _, _, _ => none
  | _ => none

/-- Parse the body of a JSON string (after the opening quote) in the
module's strict mode: raw control characters below 0x20 are rejected,
escapes are the JSON ones.  Surrogate pairs combine; a lone surrogate, which
CPython would keep, falls to `Char.ofNat`'s replacement — a corner no claim
touches.  `fuel` is instantiated with `length + 1`. -/
def parseJStr : Nat → List Char → Option (List Char × List Char)
  | 0, _ => none
  | _ + 1, [] => none
  | fuel + 1, c :: t =>
    if c = '"' then some ([], t)
    else if c = '\\' then
      match t with
      | [] => none
      | e :: r =>
        if e = '"' || e = '\\' || e = '/' then
          (parseJStr fuel r).map (fun p => (e :: p.1, p.2))
        else if e = 'b' then (parseJStr fuel r).map (fun p => (Char.ofNat 8 :: p.1, p.2))
        else if e = 'f' then (parseJStr fuel r).map (fun p => (Char.ofNat 12 :: p.1, p.2))
        else if e = 'n' then (parseJStr fuel r).map (fun p => ('\n' :: p.1, p.2))
        else if e = 'r' then (parseJStr fuel r).map (fun p => ('\r' :: p.1, p.2))
        else if e = 't' then (parseJStr fuel r).map (fun p => ('\t' :: p.1, p.2))
        else if e = 'u' then
          match parseHex4 r with
          | none => none
          | some (u, r2) =>
            if u ≥ 0xd800 && u ≤ 0xdbff then
              match r2 with
              | bs :: us :: r3 =>
                if bs = '\\' && us = 'u' then
                  match parseHex4 r3 with
                  | some (v, r4) =>
                    if v ≥ 0xdc00 && v ≤ 0xdfff then
                      (parseJStr fuel r4).map (fun p =>
                        (Char.ofNat (0x10000 + (u - 0xd800) * 0x400 + (v - 0xdc00)) :: p.1, p.2))
                    else (parseJStr fuel r2).map (fun p => (Char.ofNat u :: p.1, p.2))
                  | none => (parseJStr fuel r2).map (fun p => (Char.ofNat u :: p.1, p.2))
                else (parseJStr fuel r2).map (fun p => (Char.ofNat u :: p.1, p.2))
              | _ => (parseJStr fuel r2).map (fun p => (Char.ofNat u :: p.1, p.2))
            else (parseJStr fuel r2).map (fun p => (Char.ofNat u :: p.1, p.2))
        else none
    else if c.toNat < 0x20 then none
    else (parseJStr fuel t).map (fun p => (c :: p.1, p.2))

/-- Parse a JSON number at the head of `l`, following the scanner regex
`(-?(?:0|[1-9]\d*))(\.\d+)?([eE][-+]?\d+)?`: `jint` when neither the
fraction nor the exponent group matches, `jfloat` otherwise. -/
def parseNumber (l : List Char) : Option (JVal × List Char) :=
  let sign : Bool := l.headD ' ' = '-'
  let l1 := if sign then l.drop 1 else l
  match l1 with
  | [] => none
  | d :: _ =>
    if !reDigit d then none
    else
      let intDigits := if d = '0' then ['0'] else l1.takeWhile reDigit
      let r1 := l1.drop intDigits.length
      let fracDigits :=
        match r1 with
        | '.' :: r2 => r2.takeWhile reDigit
        | _ => []
      let hasFrac := !fracDigits.isEmpty
      let r2 := if hasFrac then r1.drop (fracDigits.length + 1) else r1
      let expPart : Option (Int × Nat) :=
        match r2 with
        | e :: r3 =>
          if e = 'e' || e = 'E' then
            let esign : Int := if r3.headD ' ' = '-' then -1 else 1
            let r4 := if r3.headD ' ' = '-' || r3.headD ' ' = '+' then r3.drop 1 else r3
            let expDigits := r4.takeWhile reDigit
            if expDigits.isEmpty then none
            else some (esign * (digitsVal expDigits : Int),
              (if r3.headD ' ' = '-' || r3.headD ' ' = '+' then 1 else 0) + 1 + expDigits.length)
          else none
        | [] => none
      let rest :=
        match expPart with
        | some pe => r2.drop pe.2
        | none => r2
      let mag : Int := (digitsVal (intDigits ++ fracDigits) : Int)
      let sgn : Int := if sign then -1 else 1
      if !hasFrac && expPart.isNone then
        some (JVal.jint (sgn * (digitsVal intDigits : Int)), rest)
      else
        let e : Int := (expPart.map (fun pe => pe.1)).getD 0
        some (JVal.jfloat ((sgn * mag : Rat) / ((10 : Rat) ^ fracDigits.length) *
          ((10 : Rat) ^ e)), rest)

mutual

/-- Parse one JSON value at the head of `l` (leading whitespace already
skipped), following CPython's `_scan_once`. -/
def parseVal : Nat → List Char → Option (JVal × List Char)
  | 0, _ => none
  | fuel + 1, l =>
    match l with
    | [] => none
    | '"' :: r => (parseJStr (r.length + 1) r).map (fun p => (JVal.jstr p.1, p.2))
    | '{' :: r =>
      (match skipWs r with
       | '}' :: r2 => some (JVal.jobj [], r2)
       | r1 => (parseMembers fuel r1).map (fun p => (JVal.jobj (dictOfPairs p.1), p.2)))
    | '[' :: r =>
      (match skipWs r with
       | ']' :: r2 => some (JVal.jarr [], r2)
       | r1 => (parseElems fuel r1).map (fun p => (JVal.jarr p.1, p.2)))
    | _ =>
      if (cl ("null")).isPrefixOf l then some (JVal.jnull, l.drop 4)
      else if (cl ("true")).isPrefixOf l then some (JVal.jbool true, l.drop 4)
      else if (cl ("false")).isPrefixOf l then some (JVal.jbool false, l.drop 5)
      else if (cl ("NaN")).isPrefixOf l then some (JVal.jnan, l.drop 3)
      else if (cl ("Infinity")).isPrefixOf l then some (JVal.jinf false, l.drop 8)
      else
        match parseNumber l with
        | some p => some p
        | none =>
          if (cl ("-Infinity")).isPrefixOf l then some (JVal.jinf true, l.drop 9)
          else none

/-- Parse object members from the first key (whitespace skipped) to the
closing brace, comma-separated, keys as JSON strings. -/
def parseMembers : Nat → List Char → Option (List (List Char × JVal) × List Char)
  | 0, _ => none
  | fuel + 1, l =>
    match l with
    | '"' :: r =>
      (match parseJStr (r.length + 1) r with
       | none => none
       | some kr =>
         match skipWs kr.2 with
         | ':' :: r4 =>
           (match parseVal fuel (skipWs r4) with
            | none => none
            | some vr =>
              match skipWs vr.2 with
              | ',' :: r7 =>
                (parseMembers fuel (skipWs r7)).map
                  (fun p => ((kr.1, vr.1) :: p.1, p.2))
              | '}' :: r7 => some ([(kr.1, vr.1)], r7)
              | _ => none)
         | _ => none)
    | _ => none

/-- Parse array elements from the first element (whitespace skipped) to the
closing bracket. -/
def parseElems : Nat → List Char → Option (List JVal × List Char)
  | 0, _ => none
  | fuel + 1, l =>
    match parseVal fuel l with
    | none => none
    | some vr =>
      match skipWs vr.2 with
      | ',' :: r2 => (parseElems fuel (skipWs r2)).map (fun p => (vr.1 :: p.1, p.2))
      | ']' :: r2 => some ([vr.1], r2)
      | _ => none

end

/-- `json.loads`: parse a whole string as one JSON document; `none` models
`json.JSONDecodeError` (leftover non-whitespace input included). -/
def json_loads (l : List Char) : Option JVal :=
  match parseVal (l.length + 2) (skipWs l) with
  | none => none
  | some vr => if skipWs vr.2 = [] then some vr.1 else none

/-! ## `clean_llm_output_gold` (query_utils.py lines 186-258) -/

/-- The 9 expected keys (lines 197-207), in source order. -/
def expected_keys : List (List Char) :=
  [cl ("price_or_not"), cl ("price_up"), cl ("price_const_stable"),
   cl ("price_down"), cl ("past_price_info"), cl ("future_price_info"),
   cl ("past_gen_info"), cl ("future_gen_info"), cl ("asset_comparison")]

/-- The all-invalid initial result of line 210: every expected key at -1. -/
def goldAllInvalid : List (List Char × JVal) :=
  expected_keys.map (fun k => (k, JVal.jint (-1)))

/-- Pattern of line 219: markdown code fence delimiters,
three backticks with an optional json/python tag and trailing whitespace, or
leading whitespace followed by three backticks. -/
def patFence : RE :=
  RE.alt
    (reSeqL [reLit (cl ("```")),
      reOpt (RE.alt (reLit (cl ("json"))) (reLit (cl ("python")))),
      RE.star true pyIsSpace])
    (RE.seq (RE.star true pyIsSpace) (reLit (cl ("```"))))

/-- Pattern of line 222, with the `re.DOTALL` of line 223:
an opening brace or bracket, a lazy run of arbitrary characters, and the
first closing brace or bracket. -/
def patJson : RE :=
  reSeqL [RE.ch (fun c => c = '{' || c = '['),
    RE.star false (fun _ => true),
    RE.ch (fun c => c = '}' || c = ']')]

/-- The bracket-delimited JSON candidates `re.findall` enumerates. -/
def bracketCandidates (ci : List Char) : List (List Char) :=
  pyFindAll patJson ci

/-- `isinstance(v, dict)`. -/
def jIsDict : JVal → Bool
  | .jobj _ => true
  | _ => false

/-- `k in v` for a dict `v` (and `false` on non-dicts). -/
def jObjHasKey (v : JVal) (k : List Char) : Bool :=
  match v with
  | .jobj l => l.any (fun p => p.1 = k)
  | _ => false

/-- The candidate loop of lines 226-234: the first bracket candidate that
`json.loads` accepts and that is a dict holding at least one expected key
(parse failures and rejected candidates `continue`). -/
def firstAccepted (cands : List (List Char)) : Option JVal :=
  cands.findSome? (fun c =>
    match json_loads c with
    | some v =>
      if jIsDict v && expected_keys.any (fun k => jObjHasKey v k) then some v
      else none
    | none => none)

/-- Python truthiness of a parsed value (`if not parsed_data`). -/
def pyFalsy : JVal → Bool
  | .jobj l => l.isEmpty
  | .jarr l => l.isEmpty
  | .jstr s => s.isEmpty
  | .jint n => n = 0
  | .jfloat q => q = 0
  | .jbool b => !b
  | .jnull => true
  | .jnan => false
  | .jinf _ => false

/-- The apostrophe character (code point 39). -/
def quoteChar : Char := Char.ofNat 39

/-- Line 244: `clean_input.replace("'", '"')`. -/
def quoteSubst (l : List Char) : List Char :=
  l.map (fun c => if c = quoteChar then '"' else c)

/-- `\w`: ASCII word character (the source keys are ASCII). -/
def isWordChar (c : Char) : Bool :=
  reDigit c || (c.toNat ≥ 97 && c.toNat ≤ 122) || (c.toNat ≥ 65 && c.toNat ≤ 90) ||
    c = '_'

/-- After the key of a `key: value` pair: `\s*:\s*(-?\d+)` — whitespace,
colon, whitespace, an optionally negative integer.  Returns the value and
the rest of the input. -/
def pairValue (r : List Char) : Option (Int × List Char) :=
  match r.dropWhile pyIsSpace with
  | ':' :: r2 =>
    let r3 := r2.dropWhile pyIsSpace
    let neg := r3.headD ' ' = '-'
    let r4 := if neg then r3.drop 1 else r3
    let ds := r4.takeWhile reDigit
    if ds.isEmpty then none
    else some ((if neg then -1 else 1) * (digitsVal ds : Int), r4.drop ds.length)
  | _ => none

/-- One attempt of the pair regex `"?(\w+)"?\s*:\s*(-?\d+)` of line 248 at
the head of `l`: optional opening quote, a maximal word run as the key, then
(preferring to consume a closing quote, as the greedy `"?` does) the colon
and integer value.  Backtracking into a shorter word run can never succeed
because the following character would again be a word character, so the
maximal run is faithful. -/
def matchPairAt (l : List Char) : Option ((List Char × Int) × List Char) :=
  let l1 := if l.headD ' ' = '"' then l.drop 1 else l
  let word := l1.takeWhile isWordChar
  if word.isEmpty then none
  else
    let r := l1.drop word.length
    match (if r.headD ' ' = '"' then pairValue (r.drop 1) else none) with
    | some vr => some ((word, vr.1), vr.2)
    | none =>
      match pairValue r with
      | some vr => some ((word, vr.1), vr.2)
      | none => none

/-- All leftmost non-overlapping pair matches (`re.findall` of line 248).
`fuel` is instantiated with `length + 1`. -/
def goldPairsAux : Nat → List Char → List (List Char × Int)
  | 0, _ => []
  | _ + 1, [] => []
  | fuel + 1, c :: t =>
    match matchPairAt (c :: t) with
    | some pr =>
      if pr.2.length < (c :: t).length then pr.1 :: goldPairsAux fuel pr.2
      else goldPairsAux fuel t
    | none => goldPairsAux fuel t

/-- Line 248-249: extract `key: integer` pairs and build a dict from them
(`{key: int(value) for key, value in pairs}`, duplicate keys last-wins). -/
def goldPairs (l : List Char) : List (List Char × JVal) :=
  dictOfPairs ((goldPairsAux (l.length + 1) l).map (fun p => (p.1, JVal.jint p.2)))

/-- The string branch of `clean_llm_output_gold` (lines 217-249), embedded
with the source's control flow: strip code fences, run the bracket-candidate
loop into `parsed_data` (initially the empty dict), and only when
`parsed_data` is still falsy run the fallback chain — whole-string
`json.loads`, `json.loads` after quote substitution, and last the pair
regex (which, as in the source, reads the quote-substituted string). -/
def goldParseString (s : List Char) : JVal :=
  let ci := pySub patFence [] s
  let afterLoop : JVal :=
    match firstAccepted (bracketCandidates ci) with
    | some d => d
    | none => JVal.jobj []
  if pyFalsy afterLoop then
    match json_loads ci with
    | some v => v
    | none =>
      let ci2 := quoteSubst ci
      match json_loads ci2 with
      | some v => v
      | none => JVal.jobj (goldPairs ci2)
  else afterLoop

/-- Modelled from the spec (claim C4 wording, §4.2 of the spec): the parse
cascade stated declaratively — accept the first bracket-delimited candidate
that parses to a mapping holding at least one expected key; only if no
candidate is accepted, fall back to whole-string JSON parsing, then to
parsing after single-quote substitution, then to regex pair extraction. -/
def goldParseCascadeSpec (s : List Char) : JVal :=
  let ci := pySub patFence [] s
  match firstAccepted (bracketCandidates ci) with
  | some d => d
  | none =>
    match json_loads ci with
    | some v => v
    | none =>
      match json_loads (quoteSubst ci) with
      | some v => v
      | none => JVal.jobj (goldPairs (quoteSubst ci))

/-- Numeric equality of a parsed value with a Python int (the `==` that
`in [0, 1]` performs): ints, floats and bools compare numerically. -/
def pyEqNum (v : JVal) (m : Int) : Bool :=
  match v with
  | .jint n => n = m
  | .jfloat q => q = (m : Rat)
  | .jbool b => (if b then (1 : Int) else 0) = m
  | _ => false

/-- `parsed_data[key] in [0, 1]` (line 255). -/
def vIn01 (v : JVal) : Bool := pyEqNum v 0 || pyEqNum v 1

/-- `key in parsed_data` (line 253): dict key membership, substring test on
strings, element equality on lists; `TypeError` on ints, floats, bools,
None, NaN and infinities, none of which are iterable. -/
def pyIn (k : List Char) (v : JVal) : Except PyErr Bool :=
  match v with
  | .jobj l => Except.ok (l.any (fun p => p.1 = k))
  | .jstr s => Except.ok (containsSub k s)
  | .jarr l => Except.ok (l.any (fun e =>
      match e with
      | .jstr s => s = k
      | _ => false))
  | _ => Except.error PyErr.typeError

/-- `parsed_data[key]` (lines 255-256): dict lookup; a string or list raises
`TypeError` for a string index (reached when the `in` test succeeded on a
substring or element). -/
def pyGetItemStr (v : JVal) (k : List Char) : Except PyErr JVal :=
  match v with
  | .jobj l =>
    (match lookupFirst l k with
     | some x => Except.ok x
     | none => Except.error PyErr.keyError)
  | _ => Except.error PyErr.typeError

/-- The update loop of lines 252-256 over the initial all--1 result: a key
present in `parsed_data` with a value `== 0` or `== 1` overwrites the -1,
anything else leaves it. -/
def goldUpdate (parsed : JVal) : Except PyErr (List (List Char × JVal)) :=
  expected_keys.mapM (fun k => do
    let b ← pyIn k parsed
    if b then
      let v ← pyGetItemStr parsed k
      if vIn01 v then pure (k, v) else pure (k, JVal.jint (-1))
    else
      pure (k, JVal.jint (-1)))

/-- The dynamic argument of `clean_llm_output_gold`: a dict, a string, or
anything else (None, a number, a list, ...), which the `isinstance` tests of
lines 215-217 both reject. -/
inductive GoldInput : Type
  | pdict (d : List (List Char × JVal)) : GoldInput
  | pstr (s : String) : GoldInput
  | pother : GoldInput

/-- `clean_llm_output_gold` (lines 186-258): dict inputs are used directly,
strings go through the parse cascade, anything else leaves `parsed_data`
empty; then the update loop builds the 9-key result — or raises. -/
def clean_llm_output_gold : GoldInput → Except PyErr (List (List Char × JVal))
  | .pdict d => goldUpdate (JVal.jobj d)
  | .pstr s => goldUpdate (goldParseString s.data)
  | .pother => goldUpdate (JVal.jobj [])

/-! ## `clean_llm_output_sentiment` (lines 145-183) and dispatch -/

/-- The label mapping of lines 156-160, in insertion order. -/
def sentiment_mapping : List (List Char × Int) :=
  [(cl ("negative"), 0), (cl ("neutral"), 1), (cl ("positive"), 2)]

/-- `clean_llm_output_sentiment` (lines 145-183).  `None` and the empty
string return -1; an exact keyword match returns its label; otherwise each
keyword votes once per `re.findall` occurrence and the majority rule of
`find_majority` (which routes `dataset_name="sentiment"` to
`find_majority_str`) decides, with `pick` the `random.choice` oracle.  The
error branches are unreachable (`words_found` is non-empty and only holds
mapping keys) but mirror `mapping[...]`/`[0]` faithfully. -/
def clean_llm_output_sentiment (text : Option String) (pick : Nat) :
    Except PyErr Int :=
  match text with
  | none => Except.ok (-1)
  | some t =>
    if t.data.isEmpty then Except.ok (-1)
    else
      let txt := pyLower (pyStrip t.data)
      match lookupFirst sentiment_mapping txt with
      | some v => Except.ok v
      | none =>
        let words_found := sentiment_mapping.flatMap
          (fun p => List.replicate (countOccurs p.1 txt) p.1)
        if words_found.isEmpty then Except.ok (-1)
        else
          match find_majority_str words_found pick with
          | some w =>
            (match lookupFirst sentiment_mapping w with
             | some v => Except.ok v
             | none => Except.error PyErr.keyError)
          | none => Except.error PyErr.indexError

/-- Modelled from the spec: the per-task sampling parameter records
`query_params_sentiment` / `query_params_gold` / `query_params_summary` are
star-imported from `src/config/query_config.py`, which is outside the given
sources; only which record dispatch returns is observable here. -/
inductive QueryParams : Type
  | sentiment : QueryParams
  | gold : QueryParams
  | summary : QueryParams
deriving DecidableEq, Repr

/-- `get_query_params` (lines 8-16): substring dispatch in the fixed order
sentiment, gold, summary; no match raises `ValueError`. -/
def get_query_params (dataset_name : String) : Except PyErr QueryParams :=
  if containsSub (cl ("sentiment")) dataset_name.data then
    Except.ok QueryParams.sentiment
  else if containsSub (cl ("gold")) dataset_name.data then
    Except.ok QueryParams.gold
  else if containsSub (cl ("summary")) dataset_name.data then
    Except.ok QueryParams.summary
  else
    Except.error PyErr.valueError

/-- The task-dependent value `clean_llm_output` returns. -/
inductive CleanOut : Type
  | sent (label : Int) : CleanOut
  | gold (result : List (List Char × JVal)) : CleanOut
  | summ (text : String) : CleanOut

/-- `clean_llm_output` (lines 74-80): substring dispatch to the three
cleaners; a dataset name matching none of the keywords falls through the
`if`/`elif` chain and silently returns `None` (`Except.ok none`). -/
def clean_llm_output (dataset_name : String) (text : String) (pick : Nat) :
    Except PyErr (Option CleanOut) :=
  if containsSub (cl ("sentiment")) dataset_name.data then
    (clean_llm_output_sentiment (some text) pick).map
      (fun v => some (CleanOut.sent v))
  else if containsSub (cl ("gold")) dataset_name.data then
    (clean_llm_output_gold (GoldInput.pstr text)).map
      (fun r => some (CleanOut.gold r))
  else if containsSub (cl ("summary")) dataset_name.data then
    (clean_llm_output_summary (some text)).map
      (fun s => some (CleanOut.summ s))
  else
    Except.ok none

/-! ## Observation predicates used by the statements -/

/-- Whether a character list contains three consecutive newlines. -/
def hasTripleNL : List Char → Bool
  | a :: b :: c :: t =>
    (a = '\n' && b = '\n' && c = '\n') || hasTripleNL (b :: c :: t)
  | _ => false

/-- Whether a character list has no leading and no trailing whitespace. -/
def strippedOk (l : List Char) : Bool :=
  (match l.head? with
   | some c => !pyIsSpace c
   | none => true) &&
  (match l.getLast? with
   | some c => !pyIsSpace c
   | none => true)

/-! ## Lemmas about the majority voter -/

theorem count_add_count_le_length {α : Type} [DecidableEq α] (l : List α)
    {a b : α} (h : a ≠ b) : l.count a + l.count b ≤ l.length := by
  induction l with
  | nil => simp
  | cons c t ih =>
    by_cases hac : a = c <;> by_cases hbc : b = c <;>
      simp_all [List.count_cons] <;> omega

theorem firstOccsAux_irrel {α : Type} [DecidableEq α] :
    ∀ (f1 f2 : Nat) (l : List α), l.length < f1 → l.length < f2 →
      firstOccsAux f1 l = firstOccsAux f2 l := by
  intro f1
  induction f1 with
  | zero => intro f2 l h1; omega
  | succ f1 ih =>
    intro f2 l h1 h2
    cases f2 with
    | zero => omega
    | succ f2 =>
      cases l with
      | nil => rfl
      | cons a t =>
        simp only [firstOccsAux]
        have hf := List.length_filter_le (fun b => decide (b ≠ a)) t
        simp only [List.length_cons] at h1 h2
        rw [ih f2 (t.filter (fun b => b ≠ a)) (by omega) (by omega)]

theorem firstOccs_cons {α : Type} [DecidableEq α] (a : α) (t : List α) :
    firstOccs (a :: t) = a :: firstOccs (t.filter (fun b => b ≠ a)) := by
  unfold firstOccs
  simp only [List.length_cons, firstOccsAux]
  have hf := List.length_filter_le (fun b => decide (b ≠ a)) t
  rw [firstOccsAux_irrel (t.length + 1) ((t.filter (fun b => b ≠ a)).length + 1)
    (t.filter (fun b => b ≠ a)) (by omega) (by omega)]

theorem mem_firstOccs {α : Type} [DecidableEq α] :
    ∀ (l : List α) (a : α), a ∈ firstOccs l ↔ a ∈ l := by
  have key : ∀ (n : Nat) (l : List α), l.length ≤ n →
      ∀ a, (a ∈ firstOccs l ↔ a ∈ l) := by
    intro n
    induction n with
    | zero =>
      intro l hl a
      have : l = [] := List.length_eq_zero.mp (Nat.le_zero.mp hl)
      subst this
      simp [firstOccs, firstOccsAux]
    | succ n ih =>
      intro l hl a
      cases l with
      | nil => simp [firstOccs, firstOccsAux]
      | cons b t =>
        rw [firstOccs_cons]
        simp only [List.mem_cons]
        have hf := List.length_filter_le (fun b2 => decide (b2 ≠ b)) t
        simp only [List.length_cons] at hl
        rw [ih (t.filter (fun b2 => b2 ≠ b)) (by omega) a, List.mem_filter]
        constructor
        · rintro (rfl | ⟨hm, _⟩)
          · exact Or.inl rfl
          · exact Or.inr hm
        · rintro (rfl | hm)
          · exact Or.inl rfl
          · by_cases hab : a = b
            · exact Or.inl hab
            · exact Or.inr ⟨hm, by simpa using hab⟩
  intro l a
  exact key l.length l (Nat.le_refl _) a

theorem mostCommonFold_spec {α : Type} [DecidableEq α] (l : List α) :
    ∀ (ks : List α) (b : α × Nat), b.2 = l.count b.1 →
      (ks.foldl (fun b a => if l.count a > b.2 then (a, l.count a) else b) b).2 =
        l.count (ks.foldl (fun b a => if l.count a > b.2 then (a, l.count a) else b) b).1 ∧
      ((ks.foldl (fun b a => if l.count a > b.2 then (a, l.count a) else b) b).1 = b.1 ∨
        (ks.foldl (fun b a => if l.count a > b.2 then (a, l.count a) else b) b).1 ∈ ks) ∧
      b.2 ≤ (ks.foldl (fun b a => if l.count a > b.2 then (a, l.count a) else b) b).2 ∧
      ∀ a ∈ ks, l.count a ≤
        (ks.foldl (fun b a => if l.count a > b.2 then (a, l.count a) else b) b).2 := by
  intro ks
  induction ks with
  | nil => intro b hb; simpa using hb
  | cons a ks ih =>
    intro b hb
    simp only [List.foldl_cons]
    by_cases hgt : l.count a > b.2
    · rw [if_pos hgt]
      obtain ⟨h1, h2, h3, h4⟩ := ih (a, l.count a) rfl
      refine ⟨h1, ?_, ?_, ?_⟩
      · rcases h2 with h2 | h2
        · exact Or.inr (by rw [h2]; exact List.mem_cons_self a ks)
        · exact Or.inr (List.mem_cons_of_mem a h2)
      · omega
      · intro x hx
        rcases List.mem_cons.mp hx with rfl | hx
        · omega
        · exact h4 x hx
    · rw [if_neg hgt]
      obtain ⟨h1, h2, h3, h4⟩ := ih b hb
      refine ⟨h1, ?_, h3, ?_⟩
      · rcases h2 with h2 | h2
        · exact Or.inl h2
        · exact Or.inr (List.mem_cons_of_mem a h2)
      · intro x hx
        rcases List.mem_cons.mp hx with rfl | hx
        · omega
        · exact h4 x hx

theorem mostCommon1_spec {α : Type} [DecidableEq α] (l : List α) (h : l ≠ []) :
    ∃ m, mostCommon1 l = some (m, l.count m) ∧ m ∈ l ∧
      ∀ a ∈ l, l.count a ≤ l.count m := by
  obtain ⟨c, t, rfl⟩ : ∃ c t, l = c :: t := by
    cases l with
    | nil => exact absurd rfl h
    | cons c t => exact ⟨c, t, rfl⟩
  rw [mostCommon1, firstOccs_cons]
  obtain ⟨h1, h2, h3, h4⟩ :=
    mostCommonFold_spec (c :: t) (firstOccs (t.filter (fun b => b ≠ c)))
      (c, (c :: t).count c) rfl
  set r := (firstOccs (t.filter (fun b => b ≠ c))).foldl
    (fun b a => if (c :: t).count a > b.2 then (a, (c :: t).count a) else b)
    (c, (c :: t).count c) with hr
  refine ⟨r.1, ?_, ?_, ?_⟩
  · simp only [← h1]
  · rcases h2 with h2 | h2
    · rw [h2]; exact List.mem_cons_self c t
    · have := (mem_firstOccs _ r.1).mp h2
      exact List.mem_cons_of_mem c (List.mem_of_mem_filter this)
  · intro a ha
    rcases List.mem_cons.mp ha with rfl | ha
    · omega
    · by_cases hac : a = c
      · subst hac; omega
      · have : a ∈ firstOccs (t.filter (fun b => b ≠ c)) :=
          (mem_firstOccs _ a).mpr (List.mem_filter.mpr ⟨ha, by simpa using hac⟩)
        have := h4 a this
        omega

/-- C2: for every non-empty list handed to `find_majority_str`, (a) the
result is always some element of the input; (b) an item with a strict
majority (`2 * count > length`) is returned deterministically, whatever the
random oracle does; (c) when no item has a strict majority (ties included),
the result is exactly the random oracle's uniform selection over the FULL
input sequence — position `pick % length` — not over the tied leaders only. -/
theorem find_majority_str_contract (l : List String) (hne : l ≠ []) :
    (∀ pick : Nat, ∃ x, find_majority_str l pick = some x ∧ x ∈ l) ∧
    (∀ m, 2 * l.count m > l.length →
      ∀ pick : Nat, find_majority_str l pick = some m) ∧
    ((∀ m ∈ l, 2 * l.count m ≤ l.length) →
      ∀ pick : Nat, find_majority_str l pick = l.get? (pick % l.length)) := by
  obtain ⟨m, hmc, hml, hmax⟩ := mostCommon1_spec l hne
  have hbody : ∀ pick : Nat, find_majority_str l pick =
      if l.length < 2 * l.count m then some m else l.get? (pick % l.length) := by
    intro pick
    unfold find_majority_str majorityRule
    rw [hmc]
  refine ⟨?_, ?_, ?_⟩
  · intro pick
    rw [hbody pick]
    by_cases hlt : l.length < 2 * l.count m
    · rw [if_pos hlt]
      exact ⟨m, rfl, hml⟩
    · rw [if_neg hlt]
      have hp : pick % l.length < l.length :=
        Nat.mod_lt pick (List.length_pos.mpr hne)
      exact ⟨l.get ⟨pick % l.length, hp⟩, List.get?_eq_get hp, List.get_mem l _ _⟩
  · intro m2 hmaj pick
    have hm2 : m2 ∈ l := by
      have h0 : 0 < l.length := List.length_pos.mpr hne
      exact List.count_pos_iff.mp (by omega)
    have h1 : l.count m2 ≤ l.count m := hmax m2 hm2
    have heq : m = m2 := by
      by_contra hne2
      have := count_add_count_le_length l hne2
      omega
    rw [hbody pick, if_pos (by omega), heq]
  · intro hnomaj pick
    have := hnomaj m hml
    rw [hbody pick, if_neg (by omega)]

/-- Witness for C2 at concrete inputs: a strict 3-of-4 majority returns "a"
regardless of the oracle, and a 2-2 tie returns the oracle's pick from the
full list. -/
theorem find_majority_str_contract_witness :
    find_majority_str (["a", "a", "a", "b"] : List String) 7 = some ("a") ∧
    find_majority_str (["a", "a", "b", "b"] : List String) 3 =
      (["a", "a", "b", "b"] : List String).get? (3 % 4) := by
  have h1 := find_majority_str_contract (["a", "a", "a", "b"] : List String)
    (by decide)
  have h2 := find_majority_str_contract (["a", "a", "b", "b"] : List String)
    (by decide)
  exact ⟨h1.2.1 ("a") (by decide) 7, h2.2.2 (by decide) 3⟩

/-! ## The gold parse cascade -/

theorem firstAccepted_not_falsy (cands : List (List Char)) (v : JVal)
    (h : firstAccepted cands = some v) : pyFalsy v = false := by
  obtain ⟨c, _, hfc⟩ := List.exists_of_findSome?_eq_some h
  cases hj : json_loads c with
  | none => rw [hj] at hfc; exact absurd hfc (by simp)
  | some w =>
    rw [hj] at hfc
    dsimp only at hfc
    by_cases hcond : (jIsDict w && expected_keys.any (fun k => jObjHasKey w k)) = true
    · rw [if_pos hcond] at hfc
      simp only [Bool.and_eq_true] at hcond
      obtain ⟨hd, hany⟩ := hcond
      cases w with
      | jobj entries =>
        obtain ⟨k, _, hk⟩ := List.any_eq_true.mp hany
        obtain ⟨p, hp, _⟩ := List.any_eq_true.mp hk
        have hv : v = JVal.jobj entries := (Option.some.injEq _ _).mp hfc.symm
        subst hv
        cases entries with
        | nil => exact absurd hp (List.not_mem_nil p)
        | cons q qs => rfl
      | jnull => exact absurd hd (by simp [jIsDict])
      | jbool b => exact absurd hd (by simp [jIsDict])
      | jint n => exact absurd hd (by simp [jIsDict])
      | jfloat q => exact absurd hd (by simp [jIsDict])
      | jnan => exact absurd hd (by simp [jIsDict])
      | jinf neg => exact absurd hd (by simp [jIsDict])
      | jstr s => exact absurd hd (by simp [jIsDict])
      | jarr elems => exact absurd hd (by simp [jIsDict])
    · rw [if_neg hcond] at hfc
      exact absurd hfc (by simp)

/-- C4: the string branch of gold extraction, embedded with the source's
imperative control flow (candidate loop with `break` into `parsed_data`,
then the `if not parsed_data` falsiness test guarding the fallback chain),
coincides on every input with the cascade as the spec states it: first
accepted bracket-delimited candidate, else whole-string JSON, else
quote-substituted JSON, else regex pair extraction. -/
theorem gold_parse_cascade_eq (s : List Char) :
    goldParseString s = goldParseCascadeSpec s := by
  unfold goldParseString goldParseCascadeSpec
  cases hfa : firstAccepted (bracketCandidates (pySub patFence [] s)) with
  | none => simp [hfa, pyFalsy]
  | some d => simp [hfa, firstAccepted_not_falsy _ d hfa]

/-! ## Closed evaluations for the error-path claims -/

/-- C1 (failing input): on the string input "5" — whose whole-string
`json.loads` parse succeeds with the integer 5 — the update loop's
`key in parsed_data` raises `TypeError`, so gold extraction does not return
the 9-key mapping the claim promises for every input. -/
theorem gold_scalar_json_raises :
    clean_llm_output_gold (GoldInput.pstr ("5")) = Except.error PyErr.typeError := by
  rfl

/-- C9: an input that is neither a dict nor a string leaves `parsed_data`
empty, so gold extraction returns the all-invalid mapping — all 9 expected
keys at -1, in order, with no exception. -/
theorem gold_other_input_all_invalid :
    clean_llm_output_gold GoldInput.pother = Except.ok goldAllInvalid ∧
    goldAllInvalid.map (fun p => p.1) = expected_keys ∧
    goldAllInvalid.length = 9 ∧
    ∀ p ∈ goldAllInvalid, p.2 = JVal.jint (-1) := by
  refine ⟨rfl, by simp [goldAllInvalid, Function.comp_def], rfl, ?_⟩
  intro p hp
  simp only [goldAllInvalid, List.mem_map] at hp
  obtain ⟨k, _, rfl⟩ := hp
  rfl

/-- C3 (failing input): the Summary cleaner, handed the `None` that
`query_ollama_model` returns after exhausting its retries, raises
`TypeError` inside `re.sub` instead of returning the input or a sentinel. -/
theorem summary_clean_none_raises :
    clean_llm_output_summary none = Except.error PyErr.typeError := by
  rfl

/-- C8 (failing input): the `(Note:` rule runs with `re.DOTALL` and without
`re.MULTILINE`, so it deletes from the first "(Note:" to the end of the whole
text; the line "def" after the affected line is NOT preserved. -/
theorem summary_note_rule_truncates_to_text_end :
    clean_llm_output_summary (some ("abc (Note: x\ndef")) =
      Except.ok (String.mk (cl ("abc"))) := by
  have h : summaryCleanChars (String.data ("abc (Note: x\ndef")) = cl ("abc") := by
    decide
  show Except.ok (String.mk (summaryCleanChars (String.data ("abc (Note: x\ndef")))) =
    Except.ok (String.mk (cl ("abc")))
  rw [h]

/-! ## Idempotence of Summary cleaning -/

/-- C7 (counterexample): Summary cleaning is not idempotent.  On "`*text"
the first pass removes only the backtick (the backtick shields the asterisk
from the bullet-marker rule, which runs earlier), leaving "*text"; a second
pass then strips the now-exposed leading "*", giving "text". -/
theorem summary_clean_not_idempotent :
    summaryCleanChars (summaryCleanChars (cl ("`*text"))) ≠
      summaryCleanChars (cl ("`*text")) := by
  decide

/-- C7 (amended): Summary cleaning is idempotent on every input whose
first-pass output is a fixed point of each individual cleaning rule — the
condition the spec itself assumes when it says no rule re-triggers on the
output of a full pass.  (The counterexample shows this premise can fail:
backtick removal can expose a marker for an earlier rule.) -/
theorem summary_clean_idempotent_of_stage_fixed (x : String)
    (h1 : stage_bulletCount (summaryCleanChars x.data) = summaryCleanChars x.data)
    (h2 : stage_headline (summaryCleanChars x.data) = summaryCleanChars x.data)
    (h3 : stage_header (summaryCleanChars x.data) = summaryCleanChars x.data)
    (h4 : stage_bulletMarker (summaryCleanChars x.data) = summaryCleanChars x.data)
    (h5 : stage_enumMarker (summaryCleanChars x.data) = summaryCleanChars x.data)
    (h6 : stage_backticks (summaryCleanChars x.data) = summaryCleanChars x.data)
    (h7 : stage_allAfter (summaryCleanChars x.data) = summaryCleanChars x.data)
    (h8 : stage_noteLine (summaryCleanChars x.data) = summaryCleanChars x.data)
    (h9 : stage_phrases (summaryCleanChars x.data) = summaryCleanChars x.data)
    (h10 : stage_newlines (summaryCleanChars x.data) = summaryCleanChars x.data)
    (h11 : stage_strip (summaryCleanChars x.data) = summaryCleanChars x.data) :
    summaryCleanChars (summaryCleanChars x.data) = summaryCleanChars x.data := by
  conv_lhs => rw [summaryCleanChars]
  rw [h1, h2, h3, h4, h5, h6, h7, h8, h9, h10, h11]

/-- Witness for the amended C7 at the concrete input "hello", whose cleaned
output "hello" is a fixed point of every rule. -/
theorem summary_clean_idempotent_of_stage_fixed_witness :
    summaryCleanChars (summaryCleanChars (String.data ("hello"))) =
      summaryCleanChars (String.data ("hello")) :=
  summary_clean_idempotent_of_stage_fixed ("hello") (by decide) (by decide)
    (by decide) (by decide) (by decide) (by decide) (by decide) (by decide)
    (by decide) (by decide) (by decide)

/-! ## Dispatch on unknown dataset names -/

/-- C6 (counterexample): a component consulting the dispatcher does default
silently — `clean_llm_output` on a dataset name matching no task keyword
falls off its `if`/`elif` chain and returns `None` instead of erroring. -/
theorem clean_llm_output_unknown_silent :
    clean_llm_output ("foo") ("x") 0 = Except.ok none := by
  rfl

/-- C6 (amended): for a dataset name containing none of "sentiment", "gold",
"summary", `get_query_params` does raise an explicit `ValueError`, but
`clean_llm_output` silently returns `None` rather than failing loudly. -/
theorem unknown_dataset_dispatch (name : String)
    (h1 : containsSub (cl ("sentiment")) name.data = false)
    (h2 : containsSub (cl ("gold")) name.data = false)
    (h3 : containsSub (cl ("summary")) name.data = false) :
    get_query_params name = Except.error PyErr.valueError ∧
    ∀ (t : String) (pick : Nat), clean_llm_output name t pick = Except.ok none := by
  constructor
  · unfold get_query_params
    rw [h1, h2, h3]
    rfl
  · intro t pick
    unfold clean_llm_output
    rw [h1, h2, h3]
    rfl

/-- Witness for the amended C6 at the concrete dataset name "foo". -/
theorem unknown_dataset_dispatch_witness :
    get_query_params ("foo") = Except.error PyErr.valueError ∧
    clean_llm_output ("foo") ("x") 5 = Except.ok none := by
  have h := unknown_dataset_dispatch ("foo") (by decide) (by decide) (by decide)
  exact ⟨h.1, h.2 ("x") 5⟩

/-! ## Normalization of the Summary output (stages 9 and 10) -/

theorem head_dropWhile_not (p : Char → Bool) :
    ∀ (l : List Char) (c : Char), (l.dropWhile p).head? = some c → p c = false := by
  intro l
  induction l with
  | nil => intro c h; simp [List.dropWhile] at h
  | cons a t ih =>
    intro c h
    rw [List.dropWhile_cons] at h
    by_cases hp : p a = true
    · rw [if_pos hp] at h
      exact ih c h
    · rw [if_neg hp] at h
      simp only [List.head?_cons, Option.some.injEq] at h
      subst h
      exact Bool.not_eq_true _ |>.mp hp

theorem pyStrip_within (l : List Char) : pyStrip l <:+: l := by
  unfold pyStrip
  have h1 : (l.dropWhile pyIsSpace) <:+ l := List.dropWhile_suffix pyIsSpace
  have h2 : ((l.dropWhile pyIsSpace).reverse.dropWhile pyIsSpace) <:+
      (l.dropWhile pyIsSpace).reverse := List.dropWhile_suffix pyIsSpace
  have h3 : ((l.dropWhile pyIsSpace).reverse.dropWhile pyIsSpace).reverse <+:
      (l.dropWhile pyIsSpace).reverse.reverse := List.reverse_prefix.mpr h2
  rw [List.reverse_reverse] at h3
  exact h3.isInfix.trans h1.isInfix

theorem strippedOk_pyStrip (l : List Char) : strippedOk (pyStrip l) = true := by
  unfold pyStrip strippedOk
  set y := (l.dropWhile pyIsSpace).reverse with hy
  cases hz : y.dropWhile pyIsSpace with
  | nil => rfl
  | cons a t =>
    rw [← hz]
    have hlast : (y.dropWhile pyIsSpace).reverse.getLast? =
        (y.dropWhile pyIsSpace).head? := List.getLast?_reverse _
    have hhead : (y.dropWhile pyIsSpace).reverse.head? =
        (y.dropWhile pyIsSpace).getLast? := List.head?_reverse _
    have hgl : (y.dropWhile pyIsSpace).getLast? = y.getLast? := by
      obtain ⟨pre, hpre⟩ := List.dropWhile_suffix (l := y) pyIsSpace
      conv_rhs => rw [← hpre]
      rw [List.getLast?_append_of_ne_nil]
      rw [hz]
      exact List.cons_ne_nil a t
    have hyg : y.getLast? = (l.dropWhile pyIsSpace).head? := by
      rw [hy, List.getLast?_reverse]
    rw [hlast, hhead, hgl, hyg]
    have hb1 : ∀ c, (y.dropWhile pyIsSpace).head? = some c → pyIsSpace c = false :=
      head_dropWhile_not pyIsSpace y
    have hb2 : ∀ c, (l.dropWhile pyIsSpace).head? = some c → pyIsSpace c = false :=
      head_dropWhile_not pyIsSpace l
    cases h1 : (y.dropWhile pyIsSpace).head? with
    | none =>
      cases h2 : (l.dropWhile pyIsSpace).head? with
      | none => rfl
      | some c2 => simp [hb2 c2 h2]
    | some c1 =>
      cases h2 : (l.dropWhile pyIsSpace).head? with
      | none => simp [hb1 c1 h1]
      | some c2 => simp [hb1 c1 h1, hb2 c2 h2]

theorem hTNL_cons_headed (c : Char) (X : List Char)
    (hh : X.head? ≠ some '\n') (hX : hasTripleNL X = false) :
    hasTripleNL (c :: X) = false := by
  cases X with
  | nil => rfl
  | cons x xs =>
    cases xs with
    | nil => rfl
    | cons y ys =>
      have hx : (x = '\n') = False := by
        simp only [List.head?_cons, ne_eq, Option.some.injEq] at hh
        simp [hh]
      simp only [hasTripleNL, hx]
      simpa using hX

theorem hTNL_two_headed (a b : Char) (X : List Char)
    (hh : X.head? ≠ some '\n') (hX : hasTripleNL X = false) :
    hasTripleNL (a :: b :: X) = false := by
  cases X with
  | nil => rfl
  | cons x xs =>
    have hx : (x = '\n') = False := by
      simp only [List.head?_cons, ne_eq, Option.some.injEq] at hh
      simp [hh]
    simp only [hasTripleNL, hx]
    have := hTNL_cons_headed b (x :: xs) (by simp [List.head?_cons]; simpa using hh) hX
    simp only [hasTripleNL] at this
    simpa using this

theorem hTNL_cons_nonNL (c : Char) (X : List Char)
    (hc : c ≠ '\n') (hX : hasTripleNL X = false) :
    hasTripleNL (c :: X) = false := by
  cases X with
  | nil => rfl
  | cons x xs =>
    cases xs with
    | nil => rfl
    | cons y ys =>
      have hcf : (c = '\n') = False := by simp [hc]
      simp only [hasTripleNL, hcf]
      simpa using hX

theorem collapseNLAux_head : ∀ (fuel : Nat) (l : List Char),
    (collapseNLAux fuel l).head? = l.head? := by
  intro fuel
  cases fuel with
  | zero => intro l; rfl
  | succ f =>
    intro l
    cases l with
    | nil => rfl
    | cons c t =>
      simp only [collapseNLAux]
      by_cases hc : c = '\n'
      · rw [if_pos hc]
        subst hc
        have hn : prefixRun (fun d => d = '\n') ('\n' :: t) =
            prefixRun (fun d => d = '\n') t + 1 := by
          simp [prefixRun]
        rw [hn]
        by_cases h3 : prefixRun (fun d => d = '\n') t + 1 ≥ 3
        · rw [if_pos h3]; rfl
        · rw [if_neg h3]; rfl
      · rw [if_neg hc]; rfl

theorem head_drop_prefixRun (p : Char → Bool) :
    ∀ (l : List Char) (c : Char),
      ((l.drop (prefixRun p l)).head? = some c) → p c = false := by
  intro l
  induction l with
  | nil => intro c h; simp at h
  | cons a t ih =>
    intro c h
    simp only [prefixRun] at h
    by_cases hp : p a = true
    · rw [if_pos hp] at h
      rw [List.drop_succ_cons] at h
      exact ih c h
    · rw [if_neg hp] at h
      simp only [List.drop_zero, List.head?_cons, Option.some.injEq] at h
      subst h
      exact Bool.not_eq_true _ |>.mp hp

theorem collapseNLAux_noTriple : ∀ (fuel : Nat) (l : List Char),
    l.length < fuel → hasTripleNL (collapseNLAux fuel l) = false := by
  intro fuel
  induction fuel with
  | zero => intro l hl; omega
  | succ f ih =>
    intro l hl
    cases l with
    | nil => rfl
    | cons c t =>
      simp only [collapseNLAux]
      by_cases hc : c = '\n'
      · rw [if_pos hc]
        subst hc
        have hn : prefixRun (fun d => d = '\n') ('\n' :: t) =
            prefixRun (fun d => d = '\n') t + 1 := by
          simp [prefixRun]
        rw [hn]
        have hXhead : (collapseNLAux f (('\n' :: t).drop
            (prefixRun (fun d => d = '\n') t + 1))).head? ≠ some '\n' := by
          rw [collapseNLAux_head, ← hn]
          intro h
          have := head_drop_prefixRun (fun d => d = '\n') ('\n' :: t) '\n' h
          simp at this
        have hlen : (('\n' :: t).drop
            (prefixRun (fun d => d = '\n') t + 1)).length < f := by
          rw [List.length_drop]
          simp only [List.length_cons] at hl ⊢
          omega
        have hXt : hasTripleNL (collapseNLAux f (('\n' :: t).drop
            (prefixRun (fun d => d = '\n') t + 1))) = false := ih _ hlen
        by_cases h3 : prefixRun (fun d => d = '\n') t + 1 ≥ 3
        · rw [if_pos h3]
          simp only [List.cons_append, List.nil_append]
          exact hTNL_two_headed _ _ _ hXhead hXt
        · rw [if_neg h3]
          have hcase : prefixRun (fun d => d = '\n') t + 1 = 1 ∨
              prefixRun (fun d => d = '\n') t + 1 = 2 := by omega
          rcases hcase with h | h
          · rw [h] at hXhead hXt ⊢
            simp only [List.replicate, List.cons_append, List.nil_append]
            exact hTNL_cons_headed _ _ hXhead hXt
          · rw [h] at hXhead hXt ⊢
            simp only [List.replicate, List.cons_append, List.nil_append]
            exact hTNL_two_headed _ _ _ hXhead hXt
      · rw [if_neg hc]
        simp only [List.length_cons] at hl
        exact hTNL_cons_nonNL c _ hc (ih t (by omega))

theorem hasTripleNL_iff (l : List Char) :
    hasTripleNL l = true ↔ ['\n', '\n', '\n'] <:+: l := by
  induction l with
  | nil =>
    simp only [hasTripleNL, Bool.false_eq_true, false_iff]
    intro h
    have := h.length_le
    simp at this
  | cons a t ih =>
    cases t with
    | nil =>
      simp only [hasTripleNL, Bool.false_eq_true, false_iff]
      intro h
      have := h.length_le
      simp at this
    | cons b u =>
      cases u with
      | nil =>
        simp only [hasTripleNL, Bool.false_eq_true, false_iff]
        intro h
        have := h.length_le
        simp at this
      | cons c v =>
        have hdef : hasTripleNL (a :: b :: c :: v) =
            ((a = '\n' && b = '\n' && c = '\n') || hasTripleNL (b :: c :: v)) := rfl
        rw [hdef, List.infix_cons_iff, Bool.or_eq_true, Bool.and_eq_true,
          Bool.and_eq_true, ih]
        constructor
        · rintro (⟨⟨ha, hb⟩, hc⟩ | h)
          · left
            rw [List.cons_prefix_cons, List.cons_prefix_cons, List.cons_prefix_cons]
            refine ⟨?_, ?_, ?_, List.nil_prefix⟩
            · simp only [decide_eq_true_eq] at ha; exact ha.symm
            · simp only [decide_eq_true_eq] at hb; exact hb.symm
            · simp only [decide_eq_true_eq] at hc; exact hc.symm
          · right; exact h
        · rintro (h | h)
          · left
            rw [List.cons_prefix_cons, List.cons_prefix_cons,
              List.cons_prefix_cons] at h
            obtain ⟨ha, hb, hc, _⟩ := h
            refine ⟨⟨?_, ?_⟩, ?_⟩ <;> simp [ha.symm, hb.symm, hc.symm]
          · right; exact h

theorem hasTripleNL_false_of_within {m l : List Char} (h : m <:+: l)
    (hl : hasTripleNL l = false) : hasTripleNL m = false := by
  by_contra hm
  rw [Bool.not_eq_false] at hm
  have h1 := (hasTripleNL_iff m).mp hm
  have h2 := (hasTripleNL_iff l).mpr (h1.trans h)
  rw [hl] at h2
  exact Bool.false_ne_true h2

/-- C10: on every string input, the Summary cleaning output is stripped of
leading and trailing whitespace and contains no run of three or more
consecutive newlines — the last two stages (newline collapsing, `strip`)
establish this whatever the earlier stages produced. -/
theorem summary_output_normalized (x : String) :
    strippedOk (summaryCleanChars x.data) = true ∧
    hasTripleNL (summaryCleanChars x.data) = false := by
  unfold summaryCleanChars stage_strip stage_newlines
  refine ⟨strippedOk_pyStrip _, ?_⟩
  apply hasTripleNL_false_of_within (pyStrip_within _)
  unfold collapseNL
  exact collapseNLAux_noTriple _ _ (Nat.lt_succ_self _)

/-! ## The C5 sentiment tie property -/

/-- C5: if, after trimming and lowercasing, the keywords "negative" and
"positive" each occur exactly once in the text and "neutral" does not occur
(such a text is never an exact keyword match, so the multiset of votes is
exactly one "negative" and one "positive" — a tie), sentiment extraction
returns 0 or 2, never 1 and never -1, whatever the random oracle picks. -/
theorem sentiment_two_keyword_tie (t : String) (pick : Nat)
    (hneg : countOccurs (cl ("negative")) (pyLower (pyStrip t.data)) = 1)
    (hpos : countOccurs (cl ("positive")) (pyLower (pyStrip t.data)) = 1)
    (hneu : countOccurs (cl ("neutral")) (pyLower (pyStrip t.data)) = 0) :
    clean_llm_output_sentiment (some t) pick = Except.ok 0 ∨
    clean_llm_output_sentiment (some t) pick = Except.ok 2 := by
  have hne : ¬ (t.data.isEmpty = true) := by
    intro hE
    rw [List.isEmpty_iff.mp hE] at hpos
    exact absurd hpos (by decide)
  unfold clean_llm_output_sentiment
  dsimp only
  rw [if_neg hne]
  set txt := pyLower (pyStrip t.data) with htxt
  have hlk : lookupFirst sentiment_mapping txt = none := by
    have h1 : cl ("negative") ≠ txt := by
      intro h
      rw [← h] at hpos
      exact absurd hpos (by decide)
    have h2 : cl ("neutral") ≠ txt := by
      intro h
      rw [← h] at hpos
      exact absurd hpos (by decide)
    have h3 : cl ("positive") ≠ txt := by
      intro h
      rw [← h] at hneg
      exact absurd hneg (by decide)
    simp [sentiment_mapping, lookupFirst, h1, h2, h3]
  rw [hlk]
  have hwf : sentiment_mapping.flatMap
      (fun p => List.replicate (countOccurs p.1 txt) p.1) =
      [cl ("negative"), cl ("positive")] := by
    simp only [sentiment_mapping, List.flatMap_cons, List.flatMap_nil]
    rw [hneg, hpos, hneu]
    rfl
  rw [hwf]
  rw [if_neg (by simp)]
  have hmaj : find_majority_str [cl ("negative"), cl ("positive")] pick =
      [cl ("negative"), cl ("positive")].get? (pick % 2) := by
    unfold find_majority_str majorityRule
    have hmc : mostCommon1 [cl ("negative"), cl ("positive")] =
        some (cl ("negative"), 1) := by decide
    rw [hmc]
    norm_num
  rw [hmaj]
  rcases Nat.mod_two_eq_zero_or_one pick with h | h <;> rw [h]
  · left; rfl
  · right; rfl

/-- Witness for C5 at the spec's own example text with oracle pick 0: the
counts hold and the result is 0 or 2. -/
theorem sentiment_two_keyword_tie_witness :
    (countOccurs (cl ("negative"))
        (pyLower (pyStrip (String.data ("I think the sentiment is negative, not positive")))) = 1) ∧
    (clean_llm_output_sentiment (some ("I think the sentiment is negative, not positive")) 0 =
        Except.ok 0 ∨
      clean_llm_output_sentiment (some ("I think the sentiment is negative, not positive")) 0 =
        Except.ok 2) :=
  ⟨by decide,
    sentiment_two_keyword_tie ("I think the sentiment is negative, not positive") 0
      (by decide) (by decide) (by decide)⟩
